import Mathlib

/-
Verification of the rebuild build engine core (hash combination, traces,
trace serialization, validation, recipes, scheduler) against its
natural-language specification.  The definitions below are a shallow
embedding of the C sources: src/hash.c, src/recipe.c (both halves: the
Recipe functions and the Trace functions), src/trace.h (the scheduler
half), src/set.h and src/map.c.  Bytes are modelled as Nat (values < 256
where the C type forces it), C strings as Lean Strings or NUL-free byte
lists, machine integers as Nat with explicit truncation where the C code
truncates, and fallible operations as Option.  The BLAKE2b hash function
(vendor/blake2, outside this repository) is an explicit parameter
`hash_data` of every definition that calls it, exactly where the C code
calls hash_data.
-/

namespace Rebuild

/-- A 256-bit content hash: the C struct Hash { uint8_t bytes[32]; }.
The 32 bytes are modelled as a list of Nat. -/
structure Hash where
  bytes : List Nat
deriving DecidableEq, Repr

/-- The all-zero hash, as produced by memset(&h, 0, sizeof(Hash)). -/
def Hash.zero : Hash := ⟨List.replicate 32 0⟩

/-- hash_combine from src/hash.c: bytewise XOR of src into dest. -/
def hash_combine (dest src : Hash) : Hash :=
  ⟨List.zipWith Nat.xor dest.bytes src.bytes⟩

/-- The byte sequence a C char* holds (hash_data is always called with
strlen, so the bytes up to the terminator), modelled by the string's
character codes — identical to the C bytes for the ASCII names used
throughout, and in general an injective stand-in feeding the abstract
hash function. -/
def strBytes (s : String) : List Nat :=
  s.data.map Char.toNat

/-- Recipe lifecycle states, from src/recipe.h. -/
inductive RecipeState where
  | pending
  | running
  | suspended
  | complete
  | failed
deriving DecidableEq, Repr

/-- set_add from src/set.c: inserting into a hash set of strings is a
no-op when the value is already present.  The set is modelled as its
list of distinct elements. -/
def set_add (s : List String) (v : String) : List String :=
  if v ∈ s then s else s ++ [v]

/-- The Recipe struct from src/recipe.h.  declared_deps and pending_deps
are string sets (lists of distinct elements); fiber and user_data are
scheduler-owned and carry no state relevant to the claims. -/
structure Recipe where
  target_name : String
  state : RecipeState
  request_key : Hash
  declared_deps : List String
  pending_deps : List String
  output_dir : Option String
  temp_dir : Option String
  start_time : Nat
deriving DecidableEq, Repr

/-- recipe_create from src/recipe.c: all fields initialized, request key
zeroed, both dependency sets empty, state PENDING. -/
def recipe_create (target_name : String) : Recipe :=
  { target_name := target_name
    state := .pending
    request_key := Hash.zero
    declared_deps := []
    pending_deps := []
    output_dir := none
    temp_dir := none
    start_time := 0 }

/-- recipe_add_dependency from src/recipe.c: add the path to both
declared_deps and pending_deps (each a no-op if already present). -/
def recipe_add_dependency (r : Recipe) (dep_path : String) : Recipe :=
  { r with declared_deps := set_add r.declared_deps dep_path
           pending_deps := set_add r.pending_deps dep_path }

/-- The deterministic sort recipe_compute_request_key applies to the
collected dependency paths (qsort with strcmp in the C code; any
comparison sort yields the same result on a duplicate-free list, namely
the unique sorted permutation). -/
def sortStrings (l : List String) : List String :=
  List.insertionSort (· ≤ ·) l

/-- recipe_compute_request_key from src/recipe.c: start from the recipe
code hash, XOR-combine the hash of the target name, then XOR-combine the
hash of each declared dependency path in sorted order.  Returns the key
the C code stores into r->request_key. -/
def recipe_compute_request_key (hash_data : List Nat → Hash)
    (r : Recipe) (recipe_code_hash : Hash) : Hash :=
  let key := hash_combine recipe_code_hash (hash_data (strBytes r.target_name))
  (sortStrings r.declared_deps).foldl
    (fun acc d => hash_combine acc (hash_data (strBytes d))) key

/-- A dependency path as stored in a Trace: the bytes of a C string
(dep_paths[i] in the C struct). -/
abbrev Path : Type := List Nat

/-- The Trace struct from src/trace.h.  The parallel arrays dep_paths
and dep_hashes (both of length dep_count) are modelled as one list of
(path, hash) pairs. -/
structure Trace where
  request_key : Hash
  deps : List (Path × Hash)
  output_tree_hash : Hash
  cpu_time_ms : Nat
  wall_time_ms : Nat
deriving DecidableEq, Repr

/-- dep_count field of the C struct. -/
def Trace.dep_count (t : Trace) : Nat := t.deps.length

/-- trace_create from src/trace.c: empty dependency arrays, zeroed
output hash and timings, the given request key. -/
def trace_create (request_key : Hash) : Trace :=
  { request_key := request_key
    deps := []
    output_tree_hash := Hash.zero
    cpu_time_ms := 0
    wall_time_ms := 0 }

/-- trace_add_dependency from src/trace.c: append one (path, hash) pair
at index dep_count. -/
def trace_add_dependency (t : Trace) (path : Path) (hash : Hash) : Trace :=
  { t with deps := t.deps ++ [(path, hash)] }

/-- What stat() reports for a path: a regular file, a directory, or
something else (the C code checks S_ISDIR then S_ISREG). -/
inductive FileKind where
  | file
  | dir
  | other
deriving DecidableEq, Repr

/-- The filesystem as trace_validate observes it: stat (none means the
path is missing), hash_file and hash_tree (none means the hashing
failed).  hash_file and hash_tree live in src/hash.c and do I/O, so
they enter the embedding as part of this environment. -/
structure FsView where
  stat : Path → Option FileKind
  hashFile : Path → Option Hash
  hashTree : Path → Option Hash

/-- One iteration of the trace_validate loop, instrumented: the Bool is
the C return value, the list records every path on which a hash
computation (hash_file or hash_tree) was started, in order.  Mirrors
src/trace.c trace_validate: stat the path (missing or non-file/dir
means false with no hashing), hash by kind (failure means false), stop
at the first hash that differs from the recorded one. -/
def trace_validate_run (fs : FsView) : List (Path × Hash) → Bool × List Path
  | [] => (true, [])
  | (path, expected) :: rest =>
    match fs.stat path with
    | none => (false, [])
    | some .other => (false, [])
    | some .dir =>
      match fs.hashTree path with
      | none => (false, [path])
      | some actual =>
        if actual = expected then
          let r := trace_validate_run fs rest
          (r.1, path :: r.2)
        else (false, [path])
    | some .file =>
      match fs.hashFile path with
      | none => (false, [path])
      | some actual =>
        if actual = expected then
          let r := trace_validate_run fs rest
          (r.1, path :: r.2)
        else (false, [path])

/-- trace_validate from src/trace.c: the Bool result of the loop. -/
def trace_validate (fs : FsView) (t : Trace) : Bool :=
  (trace_validate_run fs t.deps).1

/-- The paths trace_validate hashes, in order (the instrumentation of
the same loop). -/
def trace_validate_hashed (fs : FsView) (t : Trace) : List Path :=
  (trace_validate_run fs t.deps).2

/-- A recorded dependency currently matches: the path stats as a
regular file and hash_file returns the recorded hash, or stats as a
directory and hash_tree returns the recorded hash. -/
def dep_ok (fs : FsView) (d : Path × Hash) : Bool :=
  match fs.stat d.1 with
  | some .file => fs.hashFile d.1 == some d.2
  | some .dir => fs.hashTree d.1 == some d.2
  | _ => false

/-- Little-endian encoding of n on k bytes, as fwrite of a uint32_t or
uint64_t emits it (the value is truncated mod 256^k exactly as the C
integer type truncates). -/
def toLE : Nat → Nat → List Nat
  | 0, _ => []
  | k + 1, n => n % 256 :: toLE k (n / 256)

/-- Little-endian decoding of a byte list, as fread into a uint32_t or
uint64_t reads it back. -/
def fromLEBytes (bs : List Nat) : Nat :=
  bs.foldr (fun b acc => b + 256 * acc) 0

/-- The magic bytes "RBTR" (0x52 0x42 0x54 0x52). -/
def magicBytes : List Nat := [82, 66, 84, 82]

/-- Serialized form of one dependency record: u32 path length (the C
code writes (uint32_t)strlen(path)), the path bytes, the 32 hash
bytes. -/
def encodeDep (d : Path × Hash) : List Nat :=
  toLE 4 d.1.length ++ d.1 ++ d.2.bytes

/-- trace_save from src/trace.c, as the bytes it writes: magic,
u32 version 1, 32-byte request key, u64 dependency count, each
dependency record, 32-byte output tree hash, u64 cpu_time_ms,
u64 wall_time_ms. -/
def trace_save_bytes (t : Trace) : List Nat :=
  magicBytes ++ toLE 4 1 ++ t.request_key.bytes ++ toLE 8 t.deps.length
    ++ (t.deps.map encodeDep).flatten ++ t.output_tree_hash.bytes
    ++ toLE 8 t.cpu_time_ms ++ toLE 8 t.wall_time_ms

/-- read_all from src/trace.c: read exactly n bytes or fail. -/
def readBytes (n : Nat) (bs : List Nat) : Option (List Nat × List Nat) :=
  if n ≤ bs.length then some (bs.take n, bs.drop n) else none

/-- The dependency-reading loop of trace_load: for each of the counted
dependencies read the u32 path length (rejecting any length over 4096),
the path bytes and the 32 hash bytes; dependencies are accumulated in
file order (the C code appends with trace_add_dependency). -/
def readDeps : Nat → List Nat → Option (List (Path × Hash) × List Nat)
  | 0, bs => some ([], bs)
  | n + 1, bs =>
    match readBytes 4 bs with
    | none => none
    | some (lenB, bs1) =>
      if fromLEBytes lenB > 4096 then none
      else
        match readBytes (fromLEBytes lenB) bs1 with
        | none => none
        | some (p, bs2) =>
          match readBytes 32 bs2 with
          | none => none
          | some (hB, bs3) =>
            match readDeps n bs3 with
            | none => none
            | some (rest, bs4) => some ((p, ⟨hB⟩) :: rest, bs4)

/-- trace_load from src/trace.c, over the bytes of the trace file:
reject a short file, a magic other than "RBTR", a version other than 1,
a stored request key different from the lookup key, or any dependency
path length over 4096; otherwise return the parsed trace (whose
request_key field the C code fills from the lookup key via
trace_create). -/
def trace_load_bytes (key : Hash) (bs : List Nat) : Option Trace :=
  match readBytes 4 bs with
  | none => none
  | some (magic, bs1) =>
    if magic = magicBytes then
      match readBytes 4 bs1 with
      | none => none
      | some (verB, bs2) =>
        if fromLEBytes verB = 1 then
          match readBytes 32 bs2 with
          | none => none
          | some (keyB, bs3) =>
            if keyB = key.bytes then
              match readBytes 8 bs3 with
              | none => none
              | some (cntB, bs4) =>
                match readDeps (fromLEBytes cntB) bs4 with
                | none => none
                | some (deps, bs5) =>
                  match readBytes 32 bs5 with
                  | none => none
                  | some (outB, bs6) =>
                    match readBytes 8 bs6 with
                    | none => none
                    | some (cpuB, bs7) =>
                      match readBytes 8 bs7 with
                      | none => none
                      | some (wallB, _) =>
                        some { request_key := key
                               deps := deps
                               output_tree_hash := ⟨outB⟩
                               cpu_time_ms := fromLEBytes cpuB
                               wall_time_ms := fromLEBytes wallB }
            else none
        else none
    else none

/-- Well-formedness of a Trace as the C program and the specified
format hold it: hashes are 32 bytes, each dependency path is a NUL-free
byte string of at most 4096 bytes (the path_len invariant of the
specified trace format), and the count and timing fields fit their C
types (size_t and uint64_t). -/
def Trace.WF (t : Trace) : Prop :=
  t.request_key.bytes.length = 32 ∧
  t.output_tree_hash.bytes.length = 32 ∧
  t.deps.length < 2 ^ 64 ∧
  t.cpu_time_ms < 2 ^ 64 ∧
  t.wall_time_ms < 2 ^ 64 ∧
  ∀ d ∈ t.deps, d.1.length ≤ 4096 ∧ d.2.bytes.length = 32 ∧
    ∀ b ∈ d.1, 0 < b ∧ b < 256

/-- Lookup in a string-keyed map (src/map.c map_get), the map modelled
as an association list with distinct keys. -/
def mapGet {β : Type} (m : List (String × β)) (k : String) : Option β :=
  match m with
  | [] => none
  | (k', v) :: rest => if k' = k then some v else mapGet rest k

/-- Insert or replace in a string-keyed map (src/map.c map_set). -/
def mapSet {β : Type} (m : List (String × β)) (k : String) (v : β) :
    List (String × β) :=
  match m with
  | [] => [(k, v)]
  | (k', v') :: rest =>
    if k' = k then (k, v) :: rest else (k', v') :: mapSet rest k v

/-- Remove from a string-keyed map (src/map.c map_remove). -/
def mapRemove {β : Type} (m : List (String × β)) (k : String) :
    List (String × β) :=
  match m with
  | [] => []
  | (k', v') :: rest =>
    if k' = k then rest else (k', v') :: mapRemove rest k

/-- Result codes of scheduler entry points (RebuildError in
src/common.h, restricted to the codes the scheduler returns). -/
inductive RebuildErr where
  | ok
  | errorMemory
  | errorExec
deriving DecidableEq, Repr

/-- The Scheduler struct from src/scheduler.h as far as the claims
reach: the recipe map, the completed map (target name to output path),
the waiting map (target name to its waiter list; the C list holds
Recipe pointers, modelled by the waiters' target names since the
scheduler's recipe map owns every recipe uniquely by name), the FIFO
ready queue (likewise by name), the active count, the failure flag and
the first failed target's name. -/
structure Scheduler where
  recipes : List (String × Recipe)
  completed : List (String × String)
  waiting : List (String × List String)
  ready_queue : List String
  active_count : Int
  failed : Bool
  target_error : Option String
deriving DecidableEq, Repr

/-- scheduler_get_recipe from src/scheduler.c: return the existing
recipe for the target, or create a fresh one and add it to the map. -/
def scheduler_get_recipe (s : Scheduler) (target_name : String) :
    Scheduler × Recipe :=
  match mapGet s.recipes target_name with
  | some r => (s, r)
  | none =>
    let r := recipe_create target_name
    ({ s with recipes := mapSet s.recipes target_name r }, r)

/-- scheduler_get_completed from src/scheduler.c. -/
def scheduler_get_completed (s : Scheduler) (target_name : String) :
    Option String :=
  mapGet s.completed target_name

/-- scheduler_mark_completed from src/scheduler.c. -/
def scheduler_mark_completed (s : Scheduler) (target_name : String)
    (output_path : String) : Scheduler :=
  { s with completed := mapSet s.completed target_name output_path }

/-- scheduler_check_cache from src/scheduler.c.  The request key the C
code computes and stores is hash_data over the target name alone (the
code marks the fuller computation as a TODO).  trace_load and the
storage layer are abstracted into load_trace (lookup of the stored
trace bytes by key, already parsed; trace_load_bytes models the
parsing itself).  On a validated hit the recipe is marked COMPLETE and
its output path (output_dir, defaulting to "outputs") is published. -/
def scheduler_check_cache (hash_data : List Nat → Hash)
    (load_trace : Hash → Option Trace) (fs : FsView)
    (s : Scheduler) (rname : String) : Scheduler × Bool :=
  match mapGet s.recipes rname with
  | none => (s, false)
  | some r =>
    let request_key := hash_data (strBytes rname)
    let r1 := { r with request_key := request_key }
    let s1 := { s with recipes := mapSet s.recipes rname r1 }
    match load_trace request_key with
    | none => (s1, false)
    | some t =>
      if trace_validate fs t then
        let output_path := r1.output_dir.getD "outputs"
        let r2 := { r1 with state := .complete }
        let s2 := { s1 with recipes := mapSet s1.recipes rname r2 }
        (scheduler_mark_completed s2 rname output_path, true)
      else (s1, false)

/-- scheduler_resume_recipe from src/scheduler.c: a SUSPENDED recipe
goes back to PENDING, and the recipe is pushed onto the ready queue. -/
def scheduler_resume_recipe (s : Scheduler) (wname : String) : Scheduler :=
  match mapGet s.recipes wname with
  | none => s
  | some w =>
    let w1 := if w.state = .suspended then { w with state := .pending } else w
    { s with recipes := mapSet s.recipes wname w1
             ready_queue := s.ready_queue ++ [wname] }

/-- scheduler_on_recipe_complete from src/scheduler.c.  elapsed is the
wall-clock time the C code derives from uv_hrtime.  On success: mark
the recipe COMPLETE, build and save the trace — the C code adds no
dependencies to it (a TODO) and sets output_tree_hash to
hash_data("", 0), another TODO — publish the output path, then resume
every waiter and drop the waiting entry.  On failure: mark the recipe
FAILED, set the failure flag and the failed target's name, and leave
the waiting map and ready queue untouched.  The returned Option Trace
is the trace handed to trace_save (none on failure). -/
def scheduler_on_recipe_complete (hash_data : List Nat → Hash)
    (s : Scheduler) (r : Recipe) (success : Bool) (elapsed : Nat) :
    Scheduler × Option Trace :=
  if success then
    let r1 := { r with state := .complete }
    let t0 := trace_create r.request_key
    let t1 := { t0 with wall_time_ms := elapsed, cpu_time_ms := elapsed }
    let t2 := { t1 with output_tree_hash := hash_data [] }
    let output_path := r.output_dir.getD "outputs"
    let s1 := { s with recipes := mapSet s.recipes r.target_name r1
                       active_count := s.active_count - 1 }
    let s2 := scheduler_mark_completed s1 r.target_name output_path
    match mapGet s2.waiting r.target_name with
    | some waiters =>
      let s3 := waiters.foldl scheduler_resume_recipe s2
      ({ s3 with waiting := mapRemove s3.waiting r.target_name }, some t2)
    | none => (s2, some t2)
  else
    let r1 := { r with state := .failed }
    ({ s with recipes := mapSet s.recipes r.target_name r1
              active_count := s.active_count - 1
              failed := true
              target_error := some r.target_name }, none)

/-- scheduler_on_depend_request from src/scheduler.c.  The requesting
recipe (a pointer in C, so looked up by name here) first records the
dependency; if the target is already in the completed map its path is
returned at once; otherwise the target's recipe is fetched or created
and the branches follow its state: COMPLETE returns the (absent)
completed entry without suspending, PENDING suspends the requester,
adds it to the target's waiter list and queues the target, and any
other state suspends the requester and adds it to the waiter list
without queueing. -/
def scheduler_on_depend_request (s : Scheduler)
    (requester target : String) : Scheduler × Option String :=
  match mapGet s.recipes requester with
  | none => (s, none)
  | some r =>
    let r1 := recipe_add_dependency r target
    let s1 := { s with recipes := mapSet s.recipes requester r1 }
    match scheduler_get_completed s1 target with
    | some p => (s1, some p)
    | none =>
      let pr := scheduler_get_recipe s1 target
      let s2 := pr.1
      let dep := pr.2
      if dep.state = .complete then
        (s2, scheduler_get_completed s2 target)
      else if dep.state = .pending then
        let r2 := { r1 with state := .suspended }
        let s3 := { s2 with recipes := mapSet s2.recipes requester r2 }
        let w := (mapGet s3.waiting target).getD []
        let s4 := { s3 with waiting := mapSet s3.waiting target (requester :: w) }
        ({ s4 with ready_queue := s4.ready_queue ++ [target] }, none)
      else
        let r2 := { r1 with state := .suspended }
        let s3 := { s2 with recipes := mapSet s2.recipes requester r2 }
        let w := (mapGet s3.waiting target).getD []
        ({ s3 with waiting := mapSet s3.waiting target (requester :: w) }, none)

/-- scheduler_run from src/scheduler.c: drain the ready queue while no
failure is recorded; a popped recipe that is missing or already
COMPLETE is skipped, any other is executed.  Recipe execution (fiber
creation and resumption through the script runtime, ending in
scheduler_on_recipe_complete) is the abstract step exec.  The loop is
given fuel; when the loop stops — queue empty, failure recorded, or
fuel spent — the C function returns REBUILD_ERROR_EXEC if the failure
flag is set and REBUILD_OK otherwise. -/
def scheduler_run (exec : Scheduler → String → Scheduler) :
    Nat → Scheduler → Scheduler × RebuildErr
  | 0, s => (s, if s.failed then .errorExec else .ok)
  | fuel + 1, s =>
    match s.ready_queue, s.failed with
    | rn :: rest, false =>
      let s1 := { s with ready_queue := rest }
      match mapGet s1.recipes rn with
      | none => scheduler_run exec fuel s1
      | some r =>
        if r.state = .complete then scheduler_run exec fuel s1
        else scheduler_run exec fuel (exec s1 rn)
    | _, _ => (s, if s.failed then .errorExec else .ok)

theorem mapGet_mapSet_self {β : Type} (m : List (String × β)) (k : String)
    (v : β) : mapGet (mapSet m k v) k = some v := by
  induction m with
  | nil => simp [mapGet, mapSet]
  | cons e rest ih =>
    obtain ⟨k', v'⟩ := e
    by_cases h : k' = k <;> simp [mapGet, mapSet, h, ih]

theorem mapGet_mapSet_ne {β : Type} (m : List (String × β)) (k k' : String)
    (v : β) (h : k ≠ k') : mapGet (mapSet m k v) k' = mapGet m k' := by
  induction m with
  | nil => simp [mapGet, mapSet, h]
  | cons e rest ih =>
    obtain ⟨k'', v''⟩ := e
    by_cases h2 : k'' = k
    · subst h2
      simp [mapGet, mapSet, h]
    · by_cases h3 : k'' = k'
      · subst h3
        simp [mapGet, mapSet, h2, Ne.symm h]
      · simp [mapGet, mapSet, h2, h3, ih]

/-- Claim C10: a trace with no recorded dependencies validates against
every filesystem state, and consequently scheduler_check_cache accepts
any stored trace with no dependencies as a cache hit. -/
theorem C10_empty_trace_validates :
    (∀ (fs : FsView) (t : Trace), t.deps = [] → trace_validate fs t = true) ∧
    (∀ (hash_data : List Nat → Hash) (load_trace : Hash → Option Trace)
       (fs : FsView) (s : Scheduler) (rname : String) (r : Recipe) (t : Trace),
       mapGet s.recipes rname = some r →
       load_trace (hash_data (strBytes rname)) = some t →
       t.deps = [] →
       (scheduler_check_cache hash_data load_trace fs s rname).2 = true) := by
  constructor
  · intro fs t h
    simp [trace_validate, h, trace_validate_run]
  · intro hash_data load_trace fs s rname r t hr hl ht
    simp [scheduler_check_cache, hr, hl, trace_validate, ht, trace_validate_run]

theorem C10_empty_trace_validates_witness :
    trace_validate ⟨fun _ => none, fun _ => none, fun _ => none⟩
      (trace_create Hash.zero) = true ∧
    (scheduler_check_cache (fun _ => Hash.zero)
      (fun _ => some (trace_create Hash.zero))
      ⟨fun _ => none, fun _ => none, fun _ => none⟩
      ⟨[("t", recipe_create "t")], [], [], [], 0, false, none⟩ "t").2 = true :=
  ⟨C10_empty_trace_validates.1 _ (trace_create Hash.zero) rfl,
   C10_empty_trace_validates.2 (fun _ => Hash.zero)
     (fun _ => some (trace_create Hash.zero)) _ _ "t" (recipe_create "t")
     (trace_create Hash.zero) (by decide) rfl rfl⟩

/-- Claim C7: completing a recipe with success = false marks it FAILED,
sets the build-wide failure flag and the failed target's name, and
resumes no waiter (waiting map, ready queue and completed map are
untouched); and once the failure flag is set, scheduler_run executes no
recipe regardless of the execution step and returns the build-failure
code, so the failed target's name recorded at the first failure is the
one reported. -/
theorem C7_failure_halts_scheduler (hash_data : List Nat → Hash)
    (s : Scheduler) (r : Recipe) (elapsed : Nat) :
    ((mapGet (scheduler_on_recipe_complete hash_data s r false elapsed).1.recipes
        r.target_name).map Recipe.state = some .failed ∧
     (scheduler_on_recipe_complete hash_data s r false elapsed).1.failed = true ∧
     (scheduler_on_recipe_complete hash_data s r false elapsed).1.target_error
        = some r.target_name ∧
     (scheduler_on_recipe_complete hash_data s r false elapsed).1.waiting = s.waiting ∧
     (scheduler_on_recipe_complete hash_data s r false elapsed).1.ready_queue
        = s.ready_queue ∧
     (scheduler_on_recipe_complete hash_data s r false elapsed).1.completed
        = s.completed) ∧
    (∀ (exec : Scheduler → String → Scheduler) (fuel : Nat) (u : Scheduler),
       u.failed = true → scheduler_run exec fuel u = (u, .errorExec)) ∧
    (∀ (exec : Scheduler → String → Scheduler) (fuel : Nat),
       scheduler_run exec fuel
           (scheduler_on_recipe_complete hash_data s r false elapsed).1
         = ((scheduler_on_recipe_complete hash_data s r false elapsed).1,
            .errorExec)) := by
  have hrun : ∀ (exec : Scheduler → String → Scheduler) (fuel : Nat)
      (u : Scheduler), u.failed = true →
      scheduler_run exec fuel u = (u, .errorExec) := by
    intro exec fuel u hu
    cases fuel with
    | zero => simp [scheduler_run, hu]
    | succ n => cases hq : u.ready_queue <;> simp [scheduler_run, hu, hq]
  refine ⟨?_, hrun, ?_⟩
  · simp [scheduler_on_recipe_complete, mapGet_mapSet_self]
  · intro exec fuel
    exact hrun exec fuel _ (by simp [scheduler_on_recipe_complete])

theorem C7_failure_halts_scheduler_witness :
    scheduler_run (fun s _ => s) 3
        (scheduler_on_recipe_complete (fun _ => Hash.zero)
          ⟨[("R", recipe_create "R")], [], [], ["Q"], 1, false, none⟩
          (recipe_create "R") false 5).1
      = ((scheduler_on_recipe_complete (fun _ => Hash.zero)
          ⟨[("R", recipe_create "R")], [], [], ["Q"], 1, false, none⟩
          (recipe_create "R") false 5).1, .errorExec) :=
  (C7_failure_halts_scheduler (fun _ => Hash.zero)
    ⟨[("R", recipe_create "R")], [], [], ["Q"], 1, false, none⟩
    (recipe_create "R") 5).2.2 (fun s _ => s) 3

/-- Claim C1 (code bug): a recipe that declared the dependency "a"
completes successfully, yet the trace the scheduler hands to trace_save
carries no dependency entry at all and its output_tree_hash is
hash_data of the empty byte string rather than any hash of the output
directory tree — the dependency-recording and output-hashing steps are
TODO placeholders in scheduler_on_recipe_complete. -/
theorem C1_trace_built_without_dependencies :
    (recipe_add_dependency (recipe_create "R") "a").declared_deps = ["a"] ∧
    (scheduler_on_recipe_complete (fun bs => ⟨bs⟩)
      ⟨[("R", recipe_add_dependency (recipe_create "R") "a")], [], [], [],
        1, false, none⟩
      (recipe_add_dependency (recipe_create "R") "a") true 17).2
      = some ⟨Hash.zero, [], ⟨[]⟩, 17, 17⟩ := by decide

/-- Claim C2 (code bug): at the cache probe the stored request key is
hash_data over the target name alone; with hash_data instantiated to
the byte-identity hash the probed key for target "t" is the byte 116,
while the key recipe_compute_request_key would derive from a recipe
code hash of byte 1 and the same (dependency-free) recipe is 1 XOR 116
= 117 — the probe ignores the recipe code hash, the declared
dependencies and the tool hashes. -/
theorem C2_probe_key_ignores_code_hash_and_deps :
    ((mapGet (scheduler_check_cache (fun bs => ⟨bs⟩) (fun _ => none)
        ⟨fun _ => none, fun _ => none, fun _ => none⟩
        ⟨[("t", recipe_create "t")], [], [], [], 0, false, none⟩ "t").1.recipes
        "t").map Recipe.request_key) = some ⟨[116]⟩ ∧
    recipe_compute_request_key (fun bs => ⟨bs⟩) (recipe_create "t") ⟨[1]⟩
      = ⟨[117]⟩ ∧
    (⟨[116]⟩ : Hash) ≠ ⟨[117]⟩ := by decide

/-- A scheduler holding one recipe R, currently running, that is about
to request a dependency on target D. -/
def C8state0 : Scheduler :=
  ⟨[("R", { recipe_create "R" with state := .running })], [], [], [],
    1, false, none⟩

/-- R requests D: R is suspended into the waiter list of D and D is
created and queued. -/
def C8state1 : Scheduler := (scheduler_on_depend_request C8state0 "R" "D").1

/-- D's recipe as the scheduler map holds it after the request. -/
def C8depRecipe : Recipe := (mapGet C8state1.recipes "D").getD (recipe_create "D")

/-- D completes successfully: its waiters (R) are resumed and
requeued. -/
def C8state2 : Scheduler :=
  (scheduler_on_recipe_complete (fun _ => Hash.zero) C8state1 C8depRecipe true 0).1

/-- R's recipe as the scheduler map holds it after being resumed. -/
def C8reqRecipe : Recipe := (mapGet C8state2.recipes "R").getD (recipe_create "R")

/-- R completes successfully. -/
def C8state3 : Scheduler :=
  (scheduler_on_recipe_complete (fun _ => Hash.zero) C8state2 C8reqRecipe true 0).1

/-- Claim C8 (code bug): after the reachable sequence — R requests D,
D completes, R is resumed and completes — R's recipe sits in state
COMPLETE while its pending_deps set still contains "D": no scheduler
or recipe operation ever removes a satisfied dependency from
pending_deps (the removal in waiter_list_notify_all is a simplification
the source itself flags in a comment), so the invariant Complete ⇒
pending_deps = ∅ fails; the companion invariant pending_deps ⊆
declared_deps does hold here. -/
theorem C8_complete_with_pending_deps :
    (mapGet C8state3.recipes "R").map Recipe.state = some .complete ∧
    (mapGet C8state3.recipes "R").map Recipe.pending_deps = some ["D"] ∧
    (mapGet C8state3.recipes "R").map Recipe.declared_deps = some ["D"] ∧
    some ["D"] ≠ some ([] : List String) := by decide

/-- A scheduler in which target N's recipe is in state COMPLETE but the
completed map has no entry for N, and recipe R is running. -/
def C6state : Scheduler :=
  ⟨[("R", { recipe_create "R" with state := .running }),
    ("N", { recipe_create "N" with state := .complete })], [], [], [],
    0, false, none⟩

/-- Claim C6 counterexample: in C6state, completed[N] does not exist,
so the claim requires the requester R to become Suspended and to be
added to waiting[N]; but scheduler_on_depend_request takes the
dep-state-COMPLETE branch, leaves R running, adds no waiting entry and
returns the absent completed entry. -/
theorem C6_counterexample_complete_dep_not_suspended :
    scheduler_get_completed C6state "N" = none ∧
    (mapGet (scheduler_on_depend_request C6state "R" "N").1.recipes "R").map
      Recipe.state = some .running ∧
    mapGet (scheduler_on_depend_request C6state "R" "N").1.waiting "N" = none ∧
    (scheduler_on_depend_request C6state "R" "N").2 = none := by decide

theorem trace_validate_run_all_ok (fs : FsView) (pre l : List (Path × Hash))
    (h : ∀ d ∈ pre, dep_ok fs d = true) :
    trace_validate_run fs (pre ++ l)
      = ((trace_validate_run fs l).1,
         pre.map Prod.fst ++ (trace_validate_run fs l).2) := by
  induction pre with
  | nil => simp
  | cons d rest ih =>
    obtain ⟨p, eh⟩ := d
    have hd : dep_ok fs (p, eh) = true := h _ (by simp)
    have hrest : ∀ d ∈ rest, dep_ok fs d = true := fun d hm => h d (by simp [hm])
    unfold dep_ok at hd
    cases hstat : fs.stat p with
    | none => rw [hstat] at hd; simp at hd
    | some k =>
      cases k with
      | other => rw [hstat] at hd; simp at hd
      | file =>
        rw [hstat] at hd
        have hf : fs.hashFile p = some eh := by simpa using hd
        simp [trace_validate_run, hstat, hf, ih hrest]
      | dir =>
        rw [hstat] at hd
        have hf : fs.hashTree p = some eh := by simpa using hd
        simp [trace_validate_run, hstat, hf, ih hrest]

theorem trace_validate_run_ok_head (fs : FsView) (p : Path) (eh : Hash)
    (rest : List (Path × Hash)) (h : dep_ok fs (p, eh) = true) :
    trace_validate_run fs ((p, eh) :: rest)
      = ((trace_validate_run fs rest).1, p :: (trace_validate_run fs rest).2) := by
  have := trace_validate_run_all_ok fs [(p, eh)] rest (by simpa using h)
  simpa using this

theorem trace_validate_run_bad_head (fs : FsView) (p : Path) (eh : Hash)
    (rest : List (Path × Hash)) (h : dep_ok fs (p, eh) = false) :
    (trace_validate_run fs ((p, eh) :: rest)).1 = false ∧
    (trace_validate_run fs ((p, eh) :: rest)).2 ⊆ [p] := by
  unfold dep_ok at h
  cases hstat : fs.stat p with
  | none => simp [trace_validate_run, hstat]
  | some k =>
    cases k with
    | other => simp [trace_validate_run, hstat]
    | file =>
      rw [hstat] at h
      cases hf : fs.hashFile p with
      | none => simp [trace_validate_run, hstat, hf]
      | some a =>
        rw [hf] at h
        have hne : a ≠ eh := by simpa using h
        simp [trace_validate_run, hstat, hf, hne]
    | dir =>
      rw [hstat] at h
      cases hf : fs.hashTree p with
      | none => simp [trace_validate_run, hstat, hf]
      | some a =>
        rw [hf] at h
        have hne : a ≠ eh := by simpa using h
        simp [trace_validate_run, hstat, hf, hne]

theorem trace_validate_run_true_iff (fs : FsView) (l : List (Path × Hash)) :
    (trace_validate_run fs l).1 = true ↔ ∀ d ∈ l, dep_ok fs d = true := by
  induction l with
  | nil => simp [trace_validate_run]
  | cons d rest ih =>
    obtain ⟨p, eh⟩ := d
    by_cases hd : dep_ok fs (p, eh) = true
    · rw [trace_validate_run_ok_head fs p eh rest hd]
      simp only [List.mem_cons]
      constructor
      · intro hr e he
        rcases he with he | he
        · subst he; exact hd
        · exact (ih.1 hr) e he
      · intro hall
        exact ih.2 fun e he => hall e (Or.inr he)
    · obtain ⟨h1, _⟩ := trace_validate_run_bad_head fs p eh rest
        (by simpa using Bool.of_not_eq_true hd)
      rw [h1]
      constructor
      · intro hfalse
        exact absurd hfalse (by simp)
      · intro hall
        exact absurd (hall _ (by simp)) hd

/-- A recorded dependency whose hash computation succeeds with a value
different from the recorded one (as opposed to a dependency that is
missing or unhashable). -/
def hash_mismatch (fs : FsView) (d : Path × Hash) : Prop :=
  (fs.stat d.1 = some .file ∧ ∃ h, fs.hashFile d.1 = some h ∧ h ≠ d.2) ∨
  (fs.stat d.1 = some .dir ∧ ∃ h, fs.hashTree d.1 = some h ∧ h ≠ d.2)

theorem trace_validate_run_mismatch_head (fs : FsView) (p : Path) (eh : Hash)
    (rest : List (Path × Hash)) (h : hash_mismatch fs (p, eh)) :
    trace_validate_run fs ((p, eh) :: rest) = (false, [p]) := by
  rcases h with ⟨hstat, a, ha, hne⟩ | ⟨hstat, a, ha, hne⟩ <;>
    simp [trace_validate_run, hstat, ha, hne]

/-- Claim C3: trace_validate walks the dependencies in recorded order
and returns true exactly when every recorded dependency still matches;
when a prefix matches and the next dependency fails (missing, wrong
kind, unhashable, or hash mismatch) it returns false having started
hash computations only on the matching prefix and possibly that one
failing dependency — never on a later one; and when the first
dependency exists but its hash now differs, exactly one path is
hashed. -/
theorem C3_validate_early_cutoff (fs : FsView) (t : Trace) :
    (trace_validate fs t = true ↔ ∀ d ∈ t.deps, dep_ok fs d = true) ∧
    (∀ pre d post, t.deps = pre ++ d :: post →
       (∀ e ∈ pre, dep_ok fs e = true) → dep_ok fs d = false →
       trace_validate fs t = false ∧
       trace_validate_hashed fs t ⊆ pre.map Prod.fst ++ [d.1]) ∧
    (∀ d rest, t.deps = d :: rest → hash_mismatch fs d →
       trace_validate fs t = false ∧ trace_validate_hashed fs t = [d.1]) := by
  refine ⟨trace_validate_run_true_iff fs t.deps, ?_, ?_⟩
  · intro pre d post hdeps hpre hd
    obtain ⟨p, eh⟩ := d
    unfold trace_validate trace_validate_hashed
    rw [hdeps, trace_validate_run_all_ok fs pre _ hpre]
    obtain ⟨h1, h2⟩ := trace_validate_run_bad_head fs p eh post hd
    refine ⟨h1, ?_⟩
    intro a ha
    rcases List.mem_append.1 ha with ha | ha
    · exact List.mem_append.2 (Or.inl ha)
    · exact List.mem_append.2 (Or.inr (h2 ha))
  · intro d rest hdeps hm
    obtain ⟨p, eh⟩ := d
    unfold trace_validate trace_validate_hashed
    rw [hdeps, trace_validate_run_mismatch_head fs p eh rest hm]
    exact ⟨rfl, rfl⟩

/-- A filesystem in which the path [1] is a regular file whose current
content hash is the byte 9, and everything else is missing. -/
def C3fs : FsView :=
  ⟨fun p => if p = [1] then some .file else none,
   fun p => if p = [1] then some ⟨[9]⟩ else none,
   fun _ => none⟩

/-- A trace that recorded the path [1] with hash byte 7 — a stale
first dependency under C3fs. -/
def C3trace : Trace := ⟨Hash.zero, [([1], ⟨[7]⟩), ([2], ⟨[8]⟩)], Hash.zero, 0, 0⟩

theorem C3_validate_early_cutoff_witness :
    trace_validate C3fs C3trace = false ∧
    trace_validate_hashed C3fs C3trace = [[1]] :=
  (C3_validate_early_cutoff C3fs C3trace).2.2 ([1], ⟨[7]⟩) [([2], ⟨[8]⟩)] rfl
    (Or.inl ⟨by decide, ⟨[9]⟩, by decide, by decide⟩)

theorem foldl_add_dependency_declared (l : List String) (r : Recipe) :
    (l.foldl recipe_add_dependency r).declared_deps
      = l.foldl set_add r.declared_deps := by
  induction l generalizing r with
  | nil => rfl
  | cons a l ih =>
    rw [List.foldl_cons, List.foldl_cons, ih]
    rfl

theorem foldl_add_dependency_target (l : List String) (r : Recipe) :
    (l.foldl recipe_add_dependency r).target_name = r.target_name := by
  induction l generalizing r with
  | nil => rfl
  | cons a l ih =>
    rw [List.foldl_cons, ih]
    rfl

theorem mem_foldl_set_add (l : List String) (s : List String) (x : String) :
    x ∈ l.foldl set_add s ↔ x ∈ s ∨ x ∈ l := by
  induction l generalizing s with
  | nil => simp
  | cons a l ih =>
    rw [List.foldl_cons, ih]
    by_cases h : a ∈ s
    · simp only [set_add, h, if_true, List.mem_cons]
      constructor
      · rintro (hx | hx)
        · exact Or.inl hx
        · exact Or.inr (Or.inr hx)
      · rintro (hx | hx | hx)
        · exact Or.inl hx
        · exact Or.inl (hx ▸ h)
        · exact Or.inr hx
    · simp only [set_add, h, if_false, List.mem_append, List.mem_singleton,
        List.mem_cons]
      tauto

theorem nodup_foldl_set_add (l : List String) (s : List String)
    (h : s.Nodup) : (l.foldl set_add s).Nodup := by
  induction l generalizing s with
  | nil => exact h
  | cons a l ih =>
    rw [List.foldl_cons]
    apply ih
    by_cases ha : a ∈ s
    · simpa [set_add, ha] using h
    · simp only [set_add, ha, if_false, List.nodup_append]
      exact ⟨h, List.nodup_singleton a,
        fun x hx hxa => ha ((List.mem_singleton.1 hxa) ▸ hx)⟩

/-- Claim C9: the request key is invariant under the order in which
dependencies are registered — two registration sequences (repetitions
allowed) covering the same set of paths give the same key, because the
declared-dependency set deduplicates and the key computation sorts
before combining. -/
theorem C9_request_key_order_invariant (hash_data : List Nat → Hash)
    (recipe_code_hash : Hash) (name : String) (l1 l2 : List String)
    (h : ∀ x, x ∈ l1 ↔ x ∈ l2) :
    recipe_compute_request_key hash_data
        (l1.foldl recipe_add_dependency (recipe_create name)) recipe_code_hash
      = recipe_compute_request_key hash_data
        (l2.foldl recipe_add_dependency (recipe_create name)) recipe_code_hash := by
  have hperm : List.Perm (sortStrings (l1.foldl set_add []))
      (sortStrings (l2.foldl set_add [])) := by
    refine (List.perm_insertionSort _ _).trans
      (List.Perm.trans ?_ (List.perm_insertionSort _ _).symm)
    refine (List.perm_ext_iff_of_nodup
      (nodup_foldl_set_add l1 [] (List.nodup_nil))
      (nodup_foldl_set_add l2 [] (List.nodup_nil))).2 ?_
    intro x
    rw [mem_foldl_set_add, mem_foldl_set_add]
    simp [h x]
  have hsort : sortStrings (l1.foldl set_add [])
      = sortStrings (l2.foldl set_add []) :=
    List.eq_of_perm_of_sorted hperm (List.sorted_insertionSort _ _)
      (List.sorted_insertionSort _ _)
  unfold recipe_compute_request_key
  rw [foldl_add_dependency_target, foldl_add_dependency_target,
    foldl_add_dependency_declared, foldl_add_dependency_declared]
  show (sortStrings (l1.foldl set_add (recipe_create name).declared_deps)).foldl _ _
    = (sortStrings (l2.foldl set_add (recipe_create name).declared_deps)).foldl _ _
  rw [show (recipe_create name).declared_deps = [] from rfl, hsort]

theorem C9_request_key_order_invariant_witness :
    recipe_compute_request_key (fun bs => ⟨bs⟩)
        ((["b", "a"]).foldl recipe_add_dependency (recipe_create "t")) Hash.zero
      = recipe_compute_request_key (fun bs => ⟨bs⟩)
        ((["a", "b", "a"]).foldl recipe_add_dependency (recipe_create "t"))
        Hash.zero :=
  C9_request_key_order_invariant (fun bs => ⟨bs⟩) Hash.zero "t"
    ["b", "a"] ["a", "b", "a"] (by intro x; constructor <;> (intro hx; simp at hx ⊢; tauto))

theorem toLE_length (k n : Nat) : (toLE k n).length = k := by
  induction k generalizing n with
  | zero => rfl
  | succ k ih => simp [toLE, ih]

theorem fromLE_toLE (k n : Nat) : fromLEBytes (toLE k n) = n % 256 ^ k := by
  induction k generalizing n with
  | zero => simp [toLE, fromLEBytes, Nat.mod_one]
  | succ k ih =>
    have hcons : fromLEBytes (n % 256 :: toLE k (n / 256))
        = n % 256 + 256 * fromLEBytes (toLE k (n / 256)) := rfl
    rw [toLE, hcons, ih]
    rw [pow_succ, mul_comm (256 ^ k) 256, Nat.mod_mul]

theorem fromLE_toLE_of_lt (k n : Nat) (h : n < 256 ^ k) :
    fromLEBytes (toLE k n) = n := by
  rw [fromLE_toLE, Nat.mod_eq_of_lt h]

theorem readBytes_exact (n : Nat) (xs rest : List Nat) (h : xs.length = n) :
    readBytes n (xs ++ rest) = some (xs, rest) := by
  subst h
  unfold readBytes
  rw [if_pos (by simp)]
  rw [List.take_left, List.drop_left]

theorem readDeps_encode (deps : List (Path × Hash)) (rest : List Nat)
    (wf : ∀ d ∈ deps, d.1.length ≤ 4096 ∧ d.2.bytes.length = 32) :
    readDeps deps.length ((deps.map encodeDep).flatten ++ rest)
      = some (deps, rest) := by
  induction deps with
  | nil => simp [readDeps]
  | cons d ds ih =>
    obtain ⟨p, h⟩ := d
    obtain ⟨hp, hh⟩ := wf (p, h) (by simp)
    have hwf : ∀ d ∈ ds, d.1.length ≤ 4096 ∧ d.2.bytes.length = 32 :=
      fun d hd => wf d (by simp [hd])
    have hassoc : (((p, h) :: ds).map encodeDep).flatten ++ rest
        = toLE 4 p.length ++ (p ++ (h.bytes ++ ((ds.map encodeDep).flatten ++ rest))) := by
      simp [encodeDep, List.append_assoc]
    have hlen : fromLEBytes (toLE 4 p.length) = p.length :=
      fromLE_toLE_of_lt 4 p.length (lt_of_le_of_lt hp (by norm_num))
    have h1 := readBytes_exact 4 (toLE 4 p.length)
      (p ++ (h.bytes ++ ((ds.map encodeDep).flatten ++ rest))) (toLE_length 4 _)
    have h2 := readBytes_exact p.length p
      (h.bytes ++ ((ds.map encodeDep).flatten ++ rest)) rfl
    have h3 := readBytes_exact 32 h.bytes ((ds.map encodeDep).flatten ++ rest) hh
    have h4 := ih hwf
    have hp' : p.length ≤ 4096 := hp
    have hnot : ¬(p.length > 4096) := by omega
    simp only [List.length_cons, readDeps, hassoc, h1, hlen, hnot, if_false,
      h2, h3, h4]

/-- Claim C4: for every well-formed trace (hashes 32 bytes wide,
dependency paths valid C strings of at most 4096 bytes — the path_len
invariant of the trace format — and counts and timings within their C
integer types), parsing back the bytes trace_save writes under the same
request key returns the trace unchanged, component for component. -/
theorem C4_trace_roundtrip (t : Trace) (h : t.WF) :
    trace_load_bytes t.request_key (trace_save_bytes t) = some t := by
  obtain ⟨key, deps, out, cpu, wall⟩ := t
  obtain ⟨hkey, hout, hcnt, hcpu, hwall, hdeps⟩ := h
  have hwf : ∀ d ∈ deps, d.1.length ≤ 4096 ∧ d.2.bytes.length = 32 :=
    fun d hd => ⟨(hdeps d hd).1, (hdeps d hd).2.1⟩
  have h88 : (256 : Nat) ^ 8 = 2 ^ 64 := by norm_num
  have hv : fromLEBytes (toLE 4 1) = 1 := by norm_num [fromLE_toLE]
  have hc : fromLEBytes (toLE 8 deps.length) = deps.length :=
    fromLE_toLE_of_lt 8 _ (h88 ▸ hcnt)
  have hcpu1 : fromLEBytes (toLE 8 cpu) = cpu :=
    fromLE_toLE_of_lt 8 _ (h88 ▸ hcpu)
  have hwall1 : fromLEBytes (toLE 8 wall) = wall :=
    fromLE_toLE_of_lt 8 _ (h88 ▸ hwall)
  have h1 := readBytes_exact 4 magicBytes
    (toLE 4 1 ++ (key.bytes ++ (toLE 8 deps.length ++ ((deps.map encodeDep).flatten
      ++ (out.bytes ++ (toLE 8 cpu ++ toLE 8 wall)))))) rfl
  have h2 := readBytes_exact 4 (toLE 4 1)
    (key.bytes ++ (toLE 8 deps.length ++ ((deps.map encodeDep).flatten
      ++ (out.bytes ++ (toLE 8 cpu ++ toLE 8 wall))))) (toLE_length 4 1)
  have h3 := readBytes_exact 32 key.bytes
    (toLE 8 deps.length ++ ((deps.map encodeDep).flatten
      ++ (out.bytes ++ (toLE 8 cpu ++ toLE 8 wall)))) hkey
  have h4 := readBytes_exact 8 (toLE 8 deps.length)
    ((deps.map encodeDep).flatten ++ (out.bytes ++ (toLE 8 cpu ++ toLE 8 wall)))
    (toLE_length 8 _)
  have h5 := readDeps_encode deps (out.bytes ++ (toLE 8 cpu ++ toLE 8 wall)) hwf
  have h6 := readBytes_exact 32 out.bytes (toLE 8 cpu ++ toLE 8 wall) hout
  have h7 := readBytes_exact 8 (toLE 8 cpu) (toLE 8 wall) (toLE_length 8 cpu)
  have h8 : readBytes 8 (toLE 8 wall) = some (toLE 8 wall, []) := by
    have := readBytes_exact 8 (toLE 8 wall) [] (toLE_length 8 wall)
    simpa using this
  simp only [trace_save_bytes, trace_load_bytes, List.append_assoc,
    h1, h2, h3, h4, h5, h6, h7, h8, hv, hc, hcpu1, hwall1, if_pos rfl,
    if_true, reduceIte]

/-- A small concrete well-formed trace: one dependency ("hi" as bytes)
with an all-ones hash, zero request key and output hash, timings 3
and 4. -/
def C4trace : Trace :=
  ⟨Hash.zero, [([104, 105], ⟨List.replicate 32 1⟩)], Hash.zero, 3, 4⟩

theorem C4_trace_roundtrip_witness :
    trace_load_bytes C4trace.request_key (trace_save_bytes C4trace)
      = some C4trace :=
  C4_trace_roundtrip C4trace (by unfold Trace.WF C4trace; decide)

theorem readBytes_some (n : Nat) (bs a r : List Nat)
    (h : readBytes n bs = some (a, r)) :
    a = bs.take n ∧ r = bs.drop n ∧ a.length = n := by
  unfold readBytes at h
  split at h
  · rename_i hle
    injection h with h'
    injection h' with h1 h2
    refine ⟨h1.symm, h2.symm, ?_⟩
    rw [← h1]
    simp [List.length_take]
    omega
  · exact Option.noConfusion h

theorem readDeps_paths_le (n : Nat) : ∀ bs deps r,
    readDeps n bs = some (deps, r) → ∀ d ∈ deps, d.1.length ≤ 4096 := by
  induction n with
  | zero =>
    intro bs deps r h d hd
    rw [readDeps] at h
    injection h with h'
    injection h' with h1 h2
    subst h1
    simp at hd
  | succ n ih =>
    intro bs deps r h d hd
    rw [readDeps] at h
    cases hm : readBytes 4 bs with
    | none => rw [hm] at h; exact Option.noConfusion h
    | some pr1 =>
      obtain ⟨lenB, bs1⟩ := pr1
      rw [hm] at h
      simp only [] at h
      by_cases hgt : fromLEBytes lenB > 4096
      · rw [if_pos hgt] at h; exact Option.noConfusion h
      · rw [if_neg hgt] at h
        cases h2 : readBytes (fromLEBytes lenB) bs1 with
        | none => rw [h2] at h; exact Option.noConfusion h
        | some pr2 =>
          obtain ⟨p, bs2⟩ := pr2
          rw [h2] at h
          simp only [] at h
          cases h3 : readBytes 32 bs2 with
          | none => rw [h3] at h; exact Option.noConfusion h
          | some pr3 =>
            obtain ⟨hB, bs3⟩ := pr3
            rw [h3] at h
            simp only [] at h
            cases h4 : readDeps n bs3 with
            | none => rw [h4] at h; exact Option.noConfusion h
            | some pr4 =>
              obtain ⟨rest, bs4⟩ := pr4
              rw [h4] at h
              simp only [] at h
              injection h with h'
              injection h' with h5 h6
              subst h5
              rcases List.mem_cons.1 hd with hd | hd
              · subst hd
                obtain ⟨-, -, hplen⟩ := readBytes_some _ _ _ _ h2
                simpa [hplen] using Nat.not_lt.1 hgt
              · exact ih bs3 rest bs4 h4 d hd

/-- Claim C5: trace_load returns a trace only when the file starts with
the magic "RBTR", carries version 1 and the stored request key equal to
the lookup key, and every parsed dependency path length is at most
4096; the returned trace is keyed by the lookup key.  Contrapositively,
bytes with any other magic, another version, a mismatched stored key or
an oversized path length are rejected (a missing or short file is
rejected by the failing reads themselves). -/
theorem C5_load_rejects_malformed (key : Hash) (bs : List Nat) (t : Trace)
    (h : trace_load_bytes key bs = some t) :
    bs.take 4 = magicBytes ∧
    fromLEBytes ((bs.drop 4).take 4) = 1 ∧
    (((bs.drop 4).drop 4).take 32) = key.bytes ∧
    t.request_key = key ∧
    ∀ d ∈ t.deps, d.1.length ≤ 4096 := by
  rw [trace_load_bytes] at h
  cases hm : readBytes 4 bs with
  | none => rw [hm] at h; exact Option.noConfusion h
  | some pr1 =>
    obtain ⟨magic, bs1⟩ := pr1
    rw [hm] at h
    simp only [] at h
    obtain ⟨hmagic, hbs1, -⟩ := readBytes_some _ _ _ _ hm
    by_cases hmag : magic = magicBytes
    · rw [if_pos hmag] at h
      cases hv : readBytes 4 bs1 with
      | none => rw [hv] at h; exact Option.noConfusion h
      | some pr2 =>
        obtain ⟨verB, bs2⟩ := pr2
        rw [hv] at h
        simp only [] at h
        obtain ⟨hverB, hbs2, -⟩ := readBytes_some _ _ _ _ hv
        by_cases hver : fromLEBytes verB = 1
        · rw [if_pos hver] at h
          cases hk : readBytes 32 bs2 with
          | none => rw [hk] at h; exact Option.noConfusion h
          | some pr3 =>
            obtain ⟨keyB, bs3⟩ := pr3
            rw [hk] at h
            simp only [] at h
            obtain ⟨hkeyB, -, -⟩ := readBytes_some _ _ _ _ hk
            by_cases hkey : keyB = key.bytes
            · rw [if_pos hkey] at h
              cases hc : readBytes 8 bs3 with
              | none => rw [hc] at h; exact Option.noConfusion h
              | some pr4 =>
                obtain ⟨cntB, bs4⟩ := pr4
                rw [hc] at h
                simp only [] at h
                cases hd : readDeps (fromLEBytes cntB) bs4 with
                | none => rw [hd] at h; exact Option.noConfusion h
                | some pr5 =>
                  obtain ⟨deps, bs5⟩ := pr5
                  rw [hd] at h
                  simp only [] at h
                  cases ho : readBytes 32 bs5 with
                  | none => rw [ho] at h; exact Option.noConfusion h
                  | some pr6 =>
                    obtain ⟨outB, bs6⟩ := pr6
                    rw [ho] at h
                    simp only [] at h
                    cases hcp : readBytes 8 bs6 with
                    | none => rw [hcp] at h; exact Option.noConfusion h
                    | some pr7 =>
                      obtain ⟨cpuB, bs7⟩ := pr7
                      rw [hcp] at h
                      simp only [] at h
                      cases hw : readBytes 8 bs7 with
                      | none => rw [hw] at h; exact Option.noConfusion h
                      | some pr8 =>
                        obtain ⟨wallB, bs8⟩ := pr8
                        rw [hw] at h
                        simp only [] at h
                        injection h with h'
                        refine ⟨by rw [← hmagic, hmag], ?_, ?_, ?_, ?_⟩
                        · rw [hbs1] at hverB
                          rw [← hverB, hver]
                        · rw [hbs1] at hbs2
                          rw [hbs2] at hkeyB
                          rw [← hkeyB, hkey]
                        · rw [← h']
                        · rw [← h']
                          exact readDeps_paths_le _ _ _ _ hd
            · rw [if_neg hkey] at h; exact Option.noConfusion h
        · rw [if_neg hver] at h; exact Option.noConfusion h
    · rw [if_neg hmag] at h; exact Option.noConfusion h

set_option maxRecDepth 100000 in
theorem C5_load_rejects_malformed_witness :
    C4trace.request_key = Hash.zero ∧
    (trace_save_bytes C4trace).take 4 = magicBytes ∧
    ∀ d ∈ C4trace.deps, d.1.length ≤ 4096 := by
  have h := C5_load_rejects_malformed Hash.zero (trace_save_bytes C4trace)
    C4trace (by decide)
  exact ⟨h.2.2.2.1, h.1, h.2.2.2.2⟩

theorem mapGet_mapSet {β : Type} (m : List (String × β)) (k k' : String)
    (v : β) : mapGet (mapSet m k v) k'
      = if k = k' then some v else mapGet m k' := by
  by_cases h : k = k'
  · subst h
    simp [mapGet_mapSet_self]
  · simp [h, mapGet_mapSet_ne m k k' v h]

/-- Claim C6 as amended: for a dependency request by recipe R (present
in the recipe map as r) on target N — N is always added to R's declared
dependencies; if completed[N] exists its path is returned and R is not
suspended; if completed[N] is absent but N's recipe is already in state
COMPLETE, the absent completed entry (no path) is returned and R is
neither suspended nor added to waiting[N] and nothing is queued; in all
remaining cases R becomes Suspended, R is prepended to waiting[N], and
N's recipe is pushed onto the ready queue exactly when it is PENDING
(including just-created), while a RUNNING, SUSPENDED or FAILED
dependency is not requeued. -/
theorem C6_depend_request_behavior (s : Scheduler) (requester target : String)
    (r : Recipe) (hr : mapGet s.recipes requester = some r) :
    ((mapGet (scheduler_on_depend_request s requester target).1.recipes
        requester).map Recipe.declared_deps
      = some (set_add r.declared_deps target)) ∧
    (∀ p, mapGet s.completed target = some p →
       (scheduler_on_depend_request s requester target).2 = some p ∧
       (mapGet (scheduler_on_depend_request s requester target).1.recipes
           requester).map Recipe.state = some r.state ∧
       (scheduler_on_depend_request s requester target).1.waiting = s.waiting ∧
       (scheduler_on_depend_request s requester target).1.ready_queue
         = s.ready_queue) ∧
    (∀ d, mapGet s.completed target = none →
       mapGet s.recipes target = some d → d.state = .complete →
       (scheduler_on_depend_request s requester target).2 = none ∧
       (mapGet (scheduler_on_depend_request s requester target).1.recipes
           requester).map Recipe.state = some r.state ∧
       (scheduler_on_depend_request s requester target).1.waiting = s.waiting ∧
       (scheduler_on_depend_request s requester target).1.ready_queue
         = s.ready_queue) ∧
    (mapGet s.completed target = none →
       (mapGet s.recipes target = none ∨
        ∃ d, mapGet s.recipes target = some d ∧ d.state = .pending) →
       (scheduler_on_depend_request s requester target).2 = none ∧
       (mapGet (scheduler_on_depend_request s requester target).1.recipes
           requester).map Recipe.state = some .suspended ∧
       mapGet (scheduler_on_depend_request s requester target).1.waiting target
         = some (requester :: (mapGet s.waiting target).getD []) ∧
       (scheduler_on_depend_request s requester target).1.ready_queue
         = s.ready_queue ++ [target]) ∧
    (∀ d, mapGet s.completed target = none →
       mapGet s.recipes target = some d →
       (d.state = .running ∨ d.state = .suspended ∨ d.state = .failed) →
       (scheduler_on_depend_request s requester target).2 = none ∧
       (mapGet (scheduler_on_depend_request s requester target).1.recipes
           requester).map Recipe.state = some .suspended ∧
       mapGet (scheduler_on_depend_request s requester target).1.waiting target
         = some (requester :: (mapGet s.waiting target).getD []) ∧
       (scheduler_on_depend_request s requester target).1.ready_queue
         = s.ready_queue) := by
  cases hc : mapGet s.completed target with
  | some p =>
    simp only [scheduler_on_depend_request, scheduler_get_completed, hr, hc]
    simp [mapGet_mapSet_self, recipe_add_dependency]
  | none =>
    by_cases hreq : requester = target
    · subst hreq
      simp only [scheduler_on_depend_request, scheduler_get_completed,
        scheduler_get_recipe, hr, hc, mapGet_mapSet_self]
      cases hstate : r.state with
      | complete =>
        simp only [show (recipe_add_dependency r requester).state = r.state
            from rfl, hstate]
        simp [mapGet_mapSet_self, recipe_add_dependency, hr, hstate]
      | pending =>
        simp only [show (recipe_add_dependency r requester).state = r.state
            from rfl, hstate]
        simp [mapGet_mapSet_self, recipe_add_dependency, hr, hstate]
      | running =>
        simp only [show (recipe_add_dependency r requester).state = r.state
            from rfl, hstate]
        simp [mapGet_mapSet_self, recipe_add_dependency, hr, hstate]
      | suspended =>
        simp only [show (recipe_add_dependency r requester).state = r.state
            from rfl, hstate]
        simp [mapGet_mapSet_self, recipe_add_dependency, hr, hstate]
      | failed =>
        simp only [show (recipe_add_dependency r requester).state = r.state
            from rfl, hstate]
        simp [mapGet_mapSet_self, recipe_add_dependency, hr, hstate]
    · have hget : mapGet (mapSet s.recipes requester
          (recipe_add_dependency r target)) target = mapGet s.recipes target :=
        mapGet_mapSet_ne _ _ _ _ hreq
      cases hd : mapGet s.recipes target with
      | none =>
        simp only [scheduler_on_depend_request, scheduler_get_completed,
          scheduler_get_recipe, hr, hc, hget, hd]
        simp only [show (recipe_create target).state = RecipeState.pending
            from rfl]
        simp [mapGet_mapSet_self, recipe_add_dependency, hd]
      | some d =>
        simp only [scheduler_on_depend_request, scheduler_get_completed,
          scheduler_get_recipe, hr, hc, hget, hd]
        cases hstate : d.state with
        | complete =>
          simp [mapGet_mapSet_self, recipe_add_dependency, hd, hstate]
        | pending =>
          simp [mapGet_mapSet_self, recipe_add_dependency, hd, hstate]
        | running =>
          simp [mapGet_mapSet_self, recipe_add_dependency, hd, hstate]
        | suspended =>
          simp [mapGet_mapSet_self, recipe_add_dependency, hd, hstate]
        | failed =>
          simp [mapGet_mapSet_self, recipe_add_dependency, hd, hstate]

theorem C6_depend_request_behavior_witness :
    ((scheduler_on_depend_request
      ⟨[("R", { recipe_create "R" with state := .running })], [], [], [],
        0, false, none⟩ "R" "N").2 = none ∧
     (mapGet (scheduler_on_depend_request
      ⟨[("R", { recipe_create "R" with state := .running })], [], [], [],
        0, false, none⟩ "R" "N").1.recipes "R").map Recipe.state
       = some .suspended ∧
     mapGet (scheduler_on_depend_request
      ⟨[("R", { recipe_create "R" with state := .running })], [], [], [],
        0, false, none⟩ "R" "N").1.waiting "N" = some ["R"] ∧
     (scheduler_on_depend_request
      ⟨[("R", { recipe_create "R" with state := .running })], [], [], [],
        0, false, none⟩ "R" "N").1.ready_queue = ["N"]) := by
  have h := (C6_depend_request_behavior
    ⟨[("R", { recipe_create "R" with state := .running })], [], [], [],
      0, false, none⟩ "R" "N"
    { recipe_create "R" with state := .running } (by decide)).2.2.2.1
    rfl (Or.inl (by decide))
  exact ⟨h.1, h.2.1, h.2.2.1, h.2.2.2⟩

end Rebuild
